import Mathlib

/-!
# Presentation effects of `static/js/script.js`

A shallow embedding of the page script: the navbar scroll handler, the counter
animation with its interval timer, the stats intersection watcher, the parallax
handler, the floating-card jitter and the cursor trail.

Numbers are exact rationals (`ℚ`) standing for the script's numeric values; the
interval and timeout timers are explicit state; `Math.random` is an explicit
stream of draws; a thrown `TypeError` is an `Except.error`.  Number-to-text
conversion follows the ECMAScript algorithms for `Math.round`, `toFixed` and
the decimal rendering of integers.
-/

namespace Script

/-! ## Numeric helpers of the host language -/

/-- Truncation toward zero (the integral part used by the remainder operator). -/
def jsTrunc (x : ℚ) : ℤ := if 0 ≤ x then ⌊x⌋ else ⌈x⌉

/-- The remainder operator `x % y`: the result takes the sign of the dividend. -/
def jsMod (x y : ℚ) : ℚ := x - y * (jsTrunc (x / y) : ℚ)

/-- `Math.round`: the nearest integer, ties going toward positive infinity. -/
def mathRound (x : ℚ) : ℤ := ⌊x + 1 / 2⌋

/-- Text of a natural number as the host prints it: the plain decimal numeral up
to 21 digits, and beyond that the exponential form, the digits without their
trailing zeros, a point after the first one, then `e+` and the exponent. -/
def natToString (n : ℕ) : String :=
  let digits := (toString n).data
  if digits.length ≤ 21 then String.mk digits
  else
    let e := "e+" ++ toString (digits.length - 1)
    match digits.rdropWhile (fun c => c == '0') with
    | [] => "0"
    | [c] => String.mk [c] ++ e
    | c :: rest => String.mk (c :: '.' :: rest) ++ e

/-- Conversion of an integer-valued number to text, as done by `n + '%'` or by
assignment to `textContent`. -/
def numToString (n : ℤ) : String :=
  if n < 0 then "-" ++ natToString n.natAbs else natToString n.toNat

/-- Left-pad a digit string with zeros up to the given length. -/
def padZeros (len : ℕ) (s : String) : String :=
  String.mk (List.replicate (len - s.length) '0') ++ s

/-- `x.toFixed(f)`: let `n` be the integer for which `n / 10^f - x` is closest
to zero (the larger `n` on a tie); print `n` with a decimal point before its last
`f` digits, and a leading minus sign when `x < 0`.  (The host switches to the
plain number conversion from `10^21` on; the script only calls `toFixed` on
non-integers, which the host's numbers do not have in that range.) -/
def toFixed (x : ℚ) (f : ℕ) : String :=
  let sign := if x < 0 then "-" else ""
  let a := if x < 0 then -x else x
  let n : ℕ := (⌊a * 10 ^ f + 1 / 2⌋).toNat
  let whole := toString (n / 10 ^ f)
  if f = 0 then sign ++ whole
  else sign ++ whole ++ "." ++ padZeros f (toString (n % 10 ^ f))

/-! ## Counter animation (`animateCounter`) -/

/-- The part of a `.stat-number` element read by `animateCounter`: the number
`parseFloat(dataset.target)` returned and `dataset.unit` (`none` when the
attribute is absent). -/
structure CounterElement where
  target : ℚ
  unit : Option String
  deriving DecidableEq

/-- The closure state of one running animation: the accumulator `current`, the
element's `textContent`, and whether the interval timer is still scheduled. -/
structure CounterState where
  current : ℚ
  textContent : String
  timerActive : Bool
  deriving DecidableEq

def isDecimal (target : ℚ) : Bool := decide (jsMod target 1 ≠ 0)

def duration : ℚ := 2000

def steps : ℚ := 60

def increment (target : ℚ) : ℚ := target / steps

def stepDuration : ℚ := duration / steps

def isPercent (el : CounterElement) : Bool := decide (el.unit = some "percent")

/-- Text written by the branch `current >= target`. -/
def finalText (el : CounterElement) : String :=
  if isPercent el then
    (if isDecimal el.target then toFixed el.target 1 ++ "%"
     else numToString (mathRound el.target) ++ "%")
  else numToString (mathRound el.target)

/-- Text written by the branch `current < target`. -/
def runningText (el : CounterElement) (current : ℚ) : String :=
  if isPercent el then
    (if isDecimal el.target then toFixed current 1 ++ "%"
     else numToString (mathRound current) ++ "%")
  else numToString (mathRound current)

/-- One invocation of the interval callback. -/
def tick (el : CounterElement) (s : CounterState) : CounterState :=
  let current := s.current + increment el.target
  if current ≥ el.target then
    { current := current, textContent := finalText el, timerActive := false }
  else
    { current := current, textContent := runningText el current, timerActive := true }

/-- State right after `animateCounter(element)` returns: `current = 0`, the
text untouched, the interval scheduled. -/
def startCounter (text0 : String) : CounterState :=
  { current := 0, textContent := text0, timerActive := true }

/-- The timer loop: the callback fires every `stepDuration` ms for as long as
the interval is scheduled.  Returns the state after each firing, at most `fuel`
of them. -/
def fireTimer (el : CounterElement) : ℕ → CounterState → List CounterState
  | 0, _ => []
  | fuel + 1, s =>
    if s.timerActive then
      let s' := tick el s
      s' :: fireTimer el fuel s'
    else []

/-- All states produced by `animateCounter(element)` within `fuel` timer slots. -/
def animateCounter (el : CounterElement) (text0 : String) (fuel : ℕ) : List CounterState :=
  fireTimer el fuel (startCounter text0)

/-- The number of callback invocations performed within `fuel` timer slots. -/
def tickCount (el : CounterElement) (text0 : String) (fuel : ℕ) : ℕ :=
  (animateCounter el text0 fuel).length

/-- The state the loop is in after its `k`-th callback, for a positive target:
the closed form against which the loop is proved. -/
def stateAfter (el : CounterElement) (k : ℕ) : CounterState :=
  if k < 60 then
    { current := k * increment el.target,
      textContent := runningText el (k * increment el.target), timerActive := true }
  else
    { current := k * increment el.target, textContent := finalText el, timerActive := false }

/-- Errors raised by the host language. -/
inductive JsError where
  | typeError
  deriving DecidableEq, Repr

/-- `classList.add(token)`: the list is a set, a present token is not added again. -/
def classListAdd (classList : List String) (token : String) : List String :=
  if token ∈ classList then classList else classList ++ [token]

/-- `classList.remove(token)`. -/
def classListRemove (classList : List String) (token : String) : List String :=
  classList.filter (fun c => c ≠ token)

/-- Module state of the navbar effect: the class list of the element found by
`document.getElementById('navbar')` (`none` when the lookup gave `null`) and the
variable `lastScroll`. -/
structure NavState where
  navbar : Option (List String)
  lastScroll : ℚ
  deriving DecidableEq

/-- The first `scroll` listener, run with `window.pageYOffset = currentScroll`.
Reading `navbar.classList` on `null` throws. -/
def navbarScrollHandler (st : NavState) (currentScroll : ℚ) : Except JsError NavState :=
  match st.navbar with
  | none => Except.error JsError.typeError
  | some classList =>
    let classList' :=
      if currentScroll > 50 then classListAdd classList "scrolled"
      else classListRemove classList "scrolled"
    Except.ok { navbar := some classList', lastScroll := currentScroll }

/-- A sequence of scroll events, handled one after the other. -/
def navbarScrollAll (st : NavState) : List ℚ → Except JsError NavState
  | [] => Except.ok st
  | currentScroll :: rest =>
    match navbarScrollHandler st currentScroll with
    | Except.error e => Except.error e
    | Except.ok st' => navbarScrollAll st' rest

/-! ## Stats watcher (`statsObserver`) -/

/-- The DOM state the stats watcher touches: `dataset.animated` of every
`.stat-number` element (elements are named by a number), and the log of the
calls `animateCounter(number)` made so far. -/
structure StatsState where
  animated : ℕ → Option String
  started : List ℕ

/-- One intersection entry: `entry.isIntersecting` and the result of
`entry.target.querySelectorAll('.stat-number')`. -/
structure Entry where
  isIntersecting : Bool
  statNumbers : List ℕ
  deriving DecidableEq

/-- Truthiness of a `dataset` value: absent and the empty string are falsy. -/
def truthy (v : Option String) : Bool :=
  match v with
  | none => false
  | some s => decide (s ≠ "")

/-- Body of `statNumbers.forEach(number => ...)`. -/
def visitNumber (st : StatsState) (number : ℕ) : StatsState :=
  if !truthy (st.animated number) then
    { animated := Function.update st.animated number (some "true"),
      started := st.started ++ [number] }
  else st

/-- Body of `entries.forEach(entry => ...)`. -/
def visitEntry (st : StatsState) (entry : Entry) : StatsState :=
  if entry.isIntersecting then entry.statNumbers.foldl visitNumber st else st

/-- The callback of `statsObserver`. -/
def statsObserver (st : StatsState) (entries : List Entry) : StatsState :=
  entries.foldl visitEntry st

/-- A sequence of firings of the watcher. -/
def statsFirings (st : StatsState) (firings : List (List Entry)) : StatsState :=
  firings.foldl statsObserver st

/-- The number of animations started for an element. -/
def startCount (st : StatsState) (number : ℕ) : ℕ := st.started.count number

/-! ## Inline transforms -/

/-- The values the script assigns to `style.transform`. -/
inductive Transform where
  | translateY (px : ℚ)
  | translate (xPx yPx : ℚ)
  deriving DecidableEq

/-- A decorative element: only its inline `style.transform` matters here. -/
structure Decor where
  node : ℕ
  transform : Option Transform
  deriving DecidableEq

/-! ## Parallax of the background orbs -/

/-- Body of `orbs.forEach((orb, index) => ...)`, from position `index` on. -/
def parallaxFrom (scrolled : ℚ) : ℕ → List Decor → List Decor
  | _, [] => []
  | index, orb :: rest =>
    let speed : ℚ := ((index : ℚ) + 1) * 0.1
    { orb with transform := some (Transform.translateY (scrolled * speed)) } ::
      parallaxFrom scrolled (index + 1) rest

/-- The second `scroll` listener, run with `window.pageYOffset = scrolled` on the
list `document.querySelectorAll('.bg-orb')`. -/
def parallaxHandler (scrolled : ℚ) (orbs : List Decor) : List Decor :=
  parallaxFrom scrolled 0 orbs

/-! ## Floating cards -/

/-- `addRandomMovement` on the list `document.querySelectorAll('.floating-card')`.
`random` is the stream of values `Math.random()` returns and `next` the position
of the next draw; the new position is returned with the cards. -/
def addRandomMovement (random : ℕ → ℚ) : ℕ → List Decor → List Decor × ℕ
  | next, [] => ([], next)
  | next, card :: rest =>
    let randomX := random next * 20 - 10
    let randomY := random (next + 1) * 20 - 10
    let r := addRandomMovement random (next + 2) rest
    ({ card with transform := some (Transform.translate randomX randomY) } :: r.1, r.2)

/-! ## Cursor trail -/

/-- A `div` created by the `mousemove` listener: its identity, its class and its
inline `left` and `top`, in px. -/
structure Marker where
  node : ℕ
  className : String
  left : ℚ
  top : ℚ
  deriving DecidableEq

/-- The document body's appended children, the pending timeouts (due time and the
node whose `remove()` they call), the clock in ms and the next fresh node. -/
structure TrailState where
  now : ℚ
  body : List Marker
  timeouts : List (ℚ × ℕ)
  nextNode : ℕ
  deriving DecidableEq

inductive TrailEvent where
  | mousemove (pageX pageY : ℚ)
  | wait (dt : ℚ)
  | timeout (node : ℕ)
  deriving DecidableEq

def TrailState.init : TrailState := { now := 0, body := [], timeouts := [], nextNode := 0 }

/-- The `mousemove` listener. -/
def onMouseMove (s : TrailState) (pageX pageY : ℚ) : TrailState :=
  let cursor : Marker :=
    { node := s.nextNode, className := "cursor-glow", left := pageX, top := pageY }
  { s with
    body := s.body ++ [cursor],
    timeouts := s.timeouts ++ [(s.now + 500, s.nextNode)],
    nextNode := s.nextNode + 1 }

/-- The timeout callback `cursor.remove()` of the given node. -/
def onTimeout (s : TrailState) (node : ℕ) : TrailState :=
  { s with
    body := s.body.filter (fun m => m.node ≠ node),
    timeouts := s.timeouts.filter (fun t => t.2 ≠ node) }

/-- One step of the event loop.  Time only moves forward, and a timeout fires
only when it is pending and due. -/
def trailStep (s : TrailState) : TrailEvent → Option TrailState
  | TrailEvent.mousemove pageX pageY => some (onMouseMove s pageX pageY)
  | TrailEvent.wait dt => if 0 ≤ dt then some { s with now := s.now + dt } else none
  | TrailEvent.timeout node =>
    match s.timeouts.find? (fun t => t.2 = node) with
    | some t => if t.1 ≤ s.now then some (onTimeout s node) else none
    | none => none

def trailRun (s : TrailState) : List TrailEvent → Option TrailState
  | [] => some s
  | e :: rest =>
    match trailStep s e with
    | some s' => trailRun s' rest
    | none => none

/-! ### Invariants of the cursor trail -/

/-- Every pending timeout targets a node that has already been created. -/
def TimersKnown (s : TrailState) : Prop := ∀ t ∈ s.timeouts, t.2 < s.nextNode

/-- The marker's own timeout is pending, and the marker is in the document. -/
def MarkerPending (m : Marker) (due : ℚ) (s : TrailState) : Prop :=
  m.node < s.nextNode ∧ m ∈ s.body ∧
    (∀ t ∈ s.timeouts, t.2 = m.node → t.1 = due) ∧ (∃ t ∈ s.timeouts, t.2 = m.node)

/-- The marker's timeout has fired: the marker is gone and its due time is past. -/
def MarkerGone (m : Marker) (due : ℚ) (s : TrailState) : Prop :=
  m.node < s.nextNode ∧ (∀ m' ∈ s.body, m'.node ≠ m.node) ∧ due ≤ s.now

/-! # Theorems -/

/-! ### Closed form of the timer loop -/

theorem tick_stateAfter (el : CounterElement) (hT : 0 < el.target) (k : ℕ) (hk : k < 60)
    (s : CounterState) (hs : s.current = k * increment el.target) :
    tick el s = stateAfter el (k + 1) := by
  have hcur : s.current + increment el.target = ((k : ℚ) + 1) * increment el.target := by
    rw [hs]; ring
  have hinc : ((k : ℚ) + 1) * increment el.target = el.target * (((k : ℚ) + 1) / 60) := by
    unfold increment steps; ring
  unfold tick stateAfter
  simp only [hcur, Nat.cast_add, Nat.cast_one]
  by_cases h : k + 1 < 60
  · have hk1 : ((k : ℚ) + 1) / 60 < 1 := by
      rw [div_lt_one (by norm_num)]; exact_mod_cast h
    have hlt : ¬ (((k : ℚ) + 1) * increment el.target ≥ el.target) := by
      rw [not_le, hinc]; nlinarith
    rw [if_neg hlt, if_pos h]
  · have hk60 : (k : ℚ) + 1 = 60 := by
      have : k + 1 = 60 := by omega
      exact_mod_cast this
    have hge : ((k : ℚ) + 1) * increment el.target ≥ el.target := by
      rw [hinc, hk60]; norm_num
    rw [if_pos hge, if_neg h]

theorem fireTimer_closed (el : CounterElement) (hT : 0 < el.target) :
    ∀ (fuel j : ℕ) (s : CounterState), j < 60 → s.current = j * increment el.target →
      s.timerActive = true →
      fireTimer el fuel s = (List.range' (j + 1) (min fuel (60 - j))).map (stateAfter el) := by
  intro fuel
  induction fuel with
  | zero => intro j s _ _ _; simp [fireTimer]
  | succ fuel ih =>
    intro j s hj hs hact
    have ht := tick_stateAfter el hT j hj s hs
    simp only [fireTimer, hact, if_true, ht]
    by_cases h : j + 1 < 60
    · have hrec := ih (j + 1) (stateAfter el (j + 1)) h
        (by simp [stateAfter, h]) (by simp [stateAfter, h])
      rw [hrec]
      have hm : min (fuel + 1) (60 - j) = min fuel (60 - (j + 1)) + 1 := by omega
      rw [hm, List.range'_succ, List.map_cons]
    · have hj59 : j = 59 := by omega
      subst hj59
      have hoff : (stateAfter el (59 + 1)).timerActive = false := by simp [stateAfter]
      have hnil : fireTimer el fuel (stateAfter el (59 + 1)) = [] := by
        cases fuel with
        | zero => rfl
        | succ n => simp [fireTimer, hoff]
      rw [hnil]
      have hm : min (fuel + 1) (60 - 59) = 1 := by omega
      rw [hm]; rfl

theorem animateCounter_pos (el : CounterElement) (hT : 0 < el.target) (text0 : String)
    (fuel : ℕ) :
    animateCounter el text0 fuel = (List.range' 1 (min fuel 60)).map (stateAfter el) := by
  have h := fireTimer_closed el hT fuel 0 (startCounter text0) (by norm_num)
    (by simp [startCounter]) (by simp [startCounter])
  simpa [animateCounter] using h

theorem stateAfter_running (el : CounterElement) (k : ℕ) (hk : k + 1 < 60) :
    stateAfter el (1 + k) =
      { current := ((k : ℚ) + 1) * el.target / 60,
        textContent := runningText el (((k : ℚ) + 1) * el.target / 60),
        timerActive := true } := by
  have h : ((1 + k : ℕ) : ℚ) * increment el.target = ((k : ℚ) + 1) * el.target / 60 := by
    unfold increment steps; push_cast; ring
  have h' : 1 + k < 60 := by omega
  unfold stateAfter
  rw [if_pos h', h]

theorem stateAfter_sixty (el : CounterElement) :
    stateAfter el 60 =
      { current := el.target, textContent := finalText el, timerActive := false } := by
  have h : ((60 : ℕ) : ℚ) * increment el.target = el.target := by
    unfold increment steps; push_cast; ring
  unfold stateAfter
  rw [if_neg (by norm_num), h]

/-- C10: for a positive target, in exact arithmetic, the `k`-th callback leaves
the running value at `k * target / 60`; callbacks 1 to 59 take the intermediate
branch (running value below the target, timer kept), the 60th reaches the target,
writes the final text and clears the timer, and there is no 61st callback: the
loop performs `min fuel 60` callbacks, one every `2000 / 60` ms. -/
theorem animateCounter_sixty_ticks (el : CounterElement) (text0 : String)
    (hT : 0 < el.target) :
    stepDuration = 2000 / 60 ∧
    (∀ fuel, tickCount el text0 fuel = min fuel 60) ∧
    (∀ fuel k, k < fuel → k < 59 →
      (animateCounter el text0 fuel)[k]? =
        some { current := ((k : ℚ) + 1) * el.target / 60,
               textContent := runningText el (((k : ℚ) + 1) * el.target / 60),
               timerActive := true } ∧
      ((k : ℚ) + 1) * el.target / 60 < el.target) ∧
    (∀ fuel, 60 ≤ fuel →
      (animateCounter el text0 fuel)[59]? =
        some { current := el.target, textContent := finalText el, timerActive := false } ∧
      (animateCounter el text0 fuel)[60]? = none) := by
  refine ⟨rfl, ?_, ?_, ?_⟩
  · intro fuel
    simp [tickCount, animateCounter_pos el hT]
  · intro fuel k hkf hk
    constructor
    · rw [animateCounter_pos el hT, List.getElem?_map, List.getElem?_range' 1 1 (by omega)]
      simp only [Option.map_some', one_mul]
      rw [stateAfter_running el k (by omega)]
    · have hk' : (k : ℚ) + 1 < 60 := by exact_mod_cast (by omega : k + 1 < 60)
      have : ((k : ℚ) + 1) * el.target / 60 = el.target * (((k : ℚ) + 1) / 60) := by ring
      rw [this]
      have h1 : ((k : ℚ) + 1) / 60 < 1 := by rw [div_lt_one (by norm_num)]; exact hk'
      nlinarith
  · intro fuel hfuel
    constructor
    · rw [animateCounter_pos el hT, List.getElem?_map, List.getElem?_range' 1 1 (by omega)]
      simp only [Option.map_some', one_mul]
      rw [show 1 + 59 = 60 from rfl, stateAfter_sixty]
    · rw [animateCounter_pos el hT]
      simp

theorem animateCounter_sixty_ticks_witness :
    (0 : ℚ) < (CounterElement.mk 50 none).target ∧
    tickCount (CounterElement.mk 50 none) "0" 75 = min 75 60 :=
  ⟨by norm_num [CounterElement.target],
   (animateCounter_sixty_ticks (CounterElement.mk 50 none) "0" (by norm_num)).2.1 75⟩

theorem mem_classListAdd (classList : List String) (token c : String) :
    c ∈ classListAdd classList token ↔ c ∈ classList ∨ c = token := by
  unfold classListAdd
  by_cases h : token ∈ classList
  · rw [if_pos h]
    constructor
    · intro hc; exact Or.inl hc
    · rintro (hc | rfl)
      · exact hc
      · exact h
  · rw [if_neg h]; simp

theorem mem_classListRemove (classList : List String) (token c : String) :
    c ∈ classListRemove classList token ↔ c ∈ classList ∧ c ≠ token := by
  unfold classListRemove
  simp

theorem navbarScrollHandler_present (classList : List String) (lastScroll S : ℚ) :
    ∃ classList', navbarScrollHandler { navbar := some classList, lastScroll := lastScroll } S =
        Except.ok { navbar := some classList', lastScroll := S } ∧
      ("scrolled" ∈ classList' ↔ 50 < S) ∧
      (∀ c, c ≠ "scrolled" → (c ∈ classList' ↔ c ∈ classList)) := by
  by_cases h : S > 50
  · refine ⟨classListAdd classList "scrolled", by simp [navbarScrollHandler, h], ?_, ?_⟩
    · simp [mem_classListAdd, gt_iff_lt.mp h]
    · intro c hc; simp [mem_classListAdd, hc]
  · refine ⟨classListRemove classList "scrolled", by simp [navbarScrollHandler, h], ?_, ?_⟩
    · have h' : ¬ (50 < S) := h
      simp [mem_classListRemove, h']
    · intro c hc; simp [mem_classListRemove, hc]

/-- C3: with the navbar present, for every scroll offset `S` and every prior
class list, the handler leaves the class `scrolled` on the navbar exactly when
`S > 50` and leaves the other classes alone; after any sequence of scroll events
the class is present exactly when the last offset exceeds 50. -/
theorem navbar_scrolled_iff (classList : List String) (lastScroll S : ℚ) (earlier : List ℚ) :
    (∃ classList', navbarScrollHandler { navbar := some classList, lastScroll := lastScroll } S =
        Except.ok { navbar := some classList', lastScroll := S } ∧
      ("scrolled" ∈ classList' ↔ 50 < S) ∧
      (∀ c, c ≠ "scrolled" → (c ∈ classList' ↔ c ∈ classList))) ∧
    (∃ classList', navbarScrollAll { navbar := some classList, lastScroll := lastScroll }
        (earlier ++ [S]) = Except.ok { navbar := some classList', lastScroll := S } ∧
      ("scrolled" ∈ classList' ↔ 50 < S)) := by
  refine ⟨navbarScrollHandler_present classList lastScroll S, ?_⟩
  induction earlier generalizing classList lastScroll with
  | nil =>
    obtain ⟨cl, h1, h2, _⟩ := navbarScrollHandler_present classList lastScroll S
    exact ⟨cl, by simp [navbarScrollAll, h1], h2⟩
  | cons S0 rest ih =>
    obtain ⟨cl, h1, _, _⟩ := navbarScrollHandler_present classList lastScroll S0
    obtain ⟨cl', h3, h4⟩ := ih cl S0
    exact ⟨cl', by rw [List.cons_append]; simp only [navbarScrollAll, h1, h3], h4⟩

/-- C4 (the code at the failing input): with `navbar` null the handler throws a
`TypeError` for every scroll offset, instead of completing as a no-op. -/
theorem navbar_absent_throws (lastScroll S : ℚ) :
    navbarScrollHandler { navbar := none, lastScroll := lastScroll } S =
      Except.error JsError.typeError := rfl

/-! ### Stats watcher -/

theorem visitNumber_of_truthy (st : StatsState) (x : ℕ) (h : truthy (st.animated x) = true) :
    visitNumber st x = st := by
  simp [visitNumber, h]

theorem visitNumber_of_falsy (st : StatsState) (x : ℕ) (h : truthy (st.animated x) = false) :
    visitNumber st x =
      { animated := Function.update st.animated x (some "true"),
        started := st.started ++ [x] } := by
  simp [visitNumber, h]

theorem count_concat_self (l : List ℕ) (x : ℕ) : (l ++ [x]).count x = l.count x + 1 := by
  simp [List.count_append]

theorem count_concat_ne (l : List ℕ) (x number : ℕ) (h : x ≠ number) :
    (l ++ [x]).count number = l.count number := by
  simp [List.count_append, List.count_cons, h]

/-- The per-element invariant of the watcher: at most one start, and a started
element carries a truthy flag. -/
theorem visitNumber_count (st : StatsState) (x number : ℕ)
    (h : startCount st number ≤ 1 ∧ (startCount st number = 1 → truthy (st.animated number) = true)) :
    startCount (visitNumber st x) number ≤ 1 ∧
      (startCount (visitNumber st x) number = 1 →
        truthy ((visitNumber st x).animated number) = true) := by
  obtain ⟨h1, h2⟩ := h
  cases hx : truthy (st.animated x) with
  | true => rw [visitNumber_of_truthy st x hx]; exact ⟨h1, h2⟩
  | false =>
    rw [visitNumber_of_falsy st x hx]
    by_cases hxn : x = number
    · subst hxn
      have h0 : startCount st x = 0 := by
        by_contra hne
        have h1' : startCount st x = 1 := by omega
        rw [h2 h1'] at hx
        exact Bool.noConfusion hx
      unfold startCount at h0 ⊢
      simp only [count_concat_self, h0, Function.update_same]
      exact ⟨le_refl _, fun _ => by decide⟩
    · have hne : number ≠ x := fun h => hxn h.symm
      unfold startCount at h1 h2 ⊢
      simp only [count_concat_ne _ _ _ hxn, Function.update_noteq hne]
      exact ⟨h1, h2⟩

/-- For an element whose flag was falsy at the start: a truthy flag means the
animation was started. -/
theorem visitNumber_tight (st : StatsState) (x number : ℕ)
    (h1 : startCount st number ≤ 1)
    (h2 : startCount st number = 1 → truthy (st.animated number) = true)
    (h : truthy (st.animated number) = true → startCount st number = 1) :
    truthy ((visitNumber st x).animated number) = true →
      startCount (visitNumber st x) number = 1 := by
  cases hx : truthy (st.animated x) with
  | true => rw [visitNumber_of_truthy st x hx]; exact h
  | false =>
    rw [visitNumber_of_falsy st x hx]
    by_cases hxn : x = number
    · subst hxn
      intro _
      have h0 : startCount st x = 0 := by
        by_contra hne
        have h1' : startCount st x = 1 := by omega
        rw [h2 h1'] at hx
        exact Bool.noConfusion hx
      unfold startCount at h0 ⊢
      simp only [count_concat_self, h0]
    · have hne : number ≠ x := fun h => hxn h.symm
      unfold startCount at h ⊢
      simp only [count_concat_ne _ _ _ hxn, Function.update_noteq hne]
      exact h

theorem visitNumber_flag_mono (st : StatsState) (x number : ℕ)
    (h : truthy (st.animated number) = true) :
    truthy ((visitNumber st x).animated number) = true := by
  cases hx : truthy (st.animated x) with
  | true => rw [visitNumber_of_truthy st x hx]; exact h
  | false =>
    rw [visitNumber_of_falsy st x hx]
    by_cases hxn : x = number
    · subst hxn; simp only [Function.update_same]; decide
    · have hne : number ≠ x := fun h => hxn h.symm
      simp only [Function.update_noteq hne]; exact h

theorem visitNumber_self_flag (st : StatsState) (number : ℕ) :
    truthy ((visitNumber st number).animated number) = true := by
  cases hx : truthy (st.animated number) with
  | true => rw [visitNumber_of_truthy st number hx]; exact hx
  | false =>
    rw [visitNumber_of_falsy st number hx]
    simp only [Function.update_same]; decide

theorem foldl_visitNumber_inv (P : StatsState → Prop)
    (hP : ∀ st x, P st → P (visitNumber st x)) :
    ∀ (xs : List ℕ) (st : StatsState), P st → P (xs.foldl visitNumber st) := by
  intro xs
  induction xs with
  | nil => intro st h; exact h
  | cons x rest ih => intro st h; exact ih _ (hP st x h)

theorem statsObserver_inv (P : StatsState → Prop)
    (hP : ∀ st x, P st → P (visitNumber st x)) :
    ∀ (entries : List Entry) (st : StatsState), P st → P (statsObserver st entries) := by
  intro entries
  induction entries with
  | nil => intro st h; exact h
  | cons e rest ih =>
    intro st h
    apply ih
    unfold visitEntry
    by_cases he : e.isIntersecting = true
    · rw [if_pos he]; exact foldl_visitNumber_inv P hP _ _ h
    · rw [if_neg he]; exact h

theorem statsFirings_inv (P : StatsState → Prop)
    (hP : ∀ st x, P st → P (visitNumber st x)) :
    ∀ (firings : List (List Entry)) (st : StatsState), P st → P (statsFirings st firings) := by
  intro firings
  induction firings with
  | nil => intro st h; exact h
  | cons f rest ih => intro st h; exact ih _ (statsObserver_inv P hP f st h)

theorem foldl_visitNumber_flag (number : ℕ) :
    ∀ (xs : List ℕ) (st : StatsState), number ∈ xs →
      truthy ((xs.foldl visitNumber st).animated number) = true := by
  intro xs
  induction xs with
  | nil => intro st h; simp at h
  | cons x rest ih =>
    intro st h
    by_cases hx : number = x
    · subst hx
      exact foldl_visitNumber_inv (fun s => truthy (s.animated number) = true)
        (fun s y hs => visitNumber_flag_mono s y number hs) rest _
        (visitNumber_self_flag st number)
    · rcases List.mem_cons.mp h with h' | h'
      · exact absurd h' hx
      · exact ih _ h'

theorem statsFirings_append (st : StatsState) (a b : List (List Entry)) :
    statsFirings st (a ++ b) = statsFirings (statsFirings st a) b := by
  simp [statsFirings, List.foldl_append]

/-- C2: whatever the initial flags and whatever the sequence of firings of the
stats watcher, `animateCounter` is started at most once for each element; and for
an element whose flag is not yet set, once an intersecting entry containing it
has been delivered the element has been started exactly once, however often the
watcher fires before or after (in particular when it fires twice on that entry). -/
theorem stats_animated_once (animated0 : ℕ → Option String) (number : ℕ) (entry : Entry)
    (before after : List (List Entry))
    (hint : entry.isIntersecting = true) (hmem : number ∈ entry.statNumbers)
    (hflag : truthy (animated0 number) = false) :
    (∀ (firings : List (List Entry)) (other : ℕ),
      startCount (statsFirings { animated := animated0, started := [] } firings) other ≤ 1) ∧
    startCount (statsFirings { animated := animated0, started := [] } [[entry], [entry]])
      number = 1 ∧
    startCount (statsFirings { animated := animated0, started := [] }
      (before ++ [[entry]] ++ after)) number = 1 := by
  have hgen : ∀ (b a : List (List Entry)),
      startCount (statsFirings { animated := animated0, started := [] }
        (b ++ [[entry]] ++ a)) number = 1 := by
    intro b a
    let P : StatsState → Prop := fun st =>
      startCount st number ≤ 1 ∧
      (startCount st number = 1 → truthy (st.animated number) = true) ∧
      (truthy (st.animated number) = true → startCount st number = 1)
    have hP : ∀ st x, P st → P (visitNumber st x) := by
      intro st x ⟨h1, h2, h3⟩
      obtain ⟨c1, c2⟩ := visitNumber_count st x number ⟨h1, h2⟩
      exact ⟨c1, c2, visitNumber_tight st x number h1 h2 h3⟩
    have h0 : P { animated := animated0, started := [] } := by
      refine ⟨by simp [startCount], by simp [startCount], ?_⟩
      intro h; rw [hflag] at h; exact Bool.noConfusion h
    have hb : P (statsFirings { animated := animated0, started := [] } b) :=
      statsFirings_inv P hP b _ h0
    rw [statsFirings_append, statsFirings_append]
    set st1 := statsFirings { animated := animated0, started := [] } b with hst1
    have hmid : P (statsFirings st1 [[entry]]) := statsFirings_inv P hP _ _ hb
    have hflag1 : truthy ((statsFirings st1 [[entry]]).animated number) = true := by
      simp only [statsFirings, statsObserver, List.foldl_cons, List.foldl_nil, visitEntry, hint,
        if_true]
      exact foldl_visitNumber_flag number _ _ hmem
    have hend : P (statsFirings (statsFirings st1 [[entry]]) a) :=
      statsFirings_inv P hP a _ hmid
    have hflag2 : truthy ((statsFirings (statsFirings st1 [[entry]]) a).animated number)
        = true :=
      statsFirings_inv (fun s => truthy (s.animated number) = true)
        (fun s y hs => visitNumber_flag_mono s y number hs) a _ hflag1
    exact hend.2.2 hflag2
  refine ⟨?_, ?_, hgen before after⟩
  · intro firings other
    let Q : StatsState → Prop := fun st =>
      startCount st other ≤ 1 ∧ (startCount st other = 1 → truthy (st.animated other) = true)
    have hQ : ∀ st x, Q st → Q (visitNumber st x) := fun st x h =>
      visitNumber_count st x other h
    have h0 : Q { animated := animated0, started := [] } := by
      refine ⟨by simp [startCount], by simp [startCount]⟩
    exact (statsFirings_inv Q hQ firings _ h0).1
  · exact hgen [] [[entry]]

theorem stats_animated_once_witness :
    (Entry.mk true [3, 4]).isIntersecting = true ∧ 3 ∈ (Entry.mk true [3, 4]).statNumbers ∧
    truthy ((fun _ => none : ℕ → Option String) 3) = false ∧
    startCount (statsFirings { animated := fun _ => none, started := [] }
      [[Entry.mk true [3, 4]], [Entry.mk true [3, 4]]]) 3 = 1 :=
  ⟨rfl, by decide, rfl,
   (stats_animated_once (fun _ => none) 3 (Entry.mk true [3, 4]) [] [] rfl (by decide) rfl).2.1⟩

/-! ### Parallax -/

theorem parallaxFrom_length (scrolled : ℚ) :
    ∀ (orbs : List Decor) (index : ℕ), (parallaxFrom scrolled index orbs).length = orbs.length := by
  intro orbs
  induction orbs with
  | nil => intro index; rfl
  | cons orb rest ih => intro index; simp [parallaxFrom, ih]

theorem parallaxFrom_getElem? (scrolled : ℚ) :
    ∀ (orbs : List Decor) (index i : ℕ),
      (parallaxFrom scrolled index orbs)[i]? =
        (orbs[i]?).map (fun orb =>
          Decor.mk orb.node
            (some (Transform.translateY (scrolled * (((index + i : ℕ) : ℚ) + 1) * 0.1)))) := by
  intro orbs
  induction orbs with
  | nil => intro index i; simp [parallaxFrom]
  | cons orb rest ih =>
    intro index i
    cases i with
    | zero =>
      simp only [parallaxFrom, List.getElem?_cons_zero, Option.map_some', add_zero]
      congr 4
      ring
    | succ i =>
      simp only [parallaxFrom, List.getElem?_cons_succ]
      rw [ih (index + 1) i, show index + 1 + i = index + (i + 1) by omega]

/-- C5: for every scroll offset `S` and every position `i` of the `.bg-orb`
list, the parallax handler sets the transform of the orb at `i` to a vertical
translation of exactly `S * (i + 1) * 0.1` px and touches nothing else; it does
so for every orb of the list (the list keeps its length). -/
theorem parallax_transform (S : ℚ) (orbs : List Decor) (i : ℕ) :
    (parallaxHandler S orbs).length = orbs.length ∧
    (parallaxHandler S orbs)[i]? =
      (orbs[i]?).map (fun orb =>
        Decor.mk orb.node (some (Transform.translateY (S * ((i : ℚ) + 1) * 0.1)))) := by
  refine ⟨parallaxFrom_length S orbs 0, ?_⟩
  unfold parallaxHandler
  rw [parallaxFrom_getElem? S orbs 0 i, zero_add]

/-! ### Floating cards -/

theorem addRandomMovement_next (random : ℕ → ℚ) :
    ∀ (cards : List Decor) (next : ℕ),
      (addRandomMovement random next cards).2 = next + 2 * cards.length := by
  intro cards
  induction cards with
  | nil => intro next; rfl
  | cons card rest ih =>
    intro next
    simp only [addRandomMovement, ih, List.length_cons]
    omega

theorem addRandomMovement_getElem? (random : ℕ → ℚ) :
    ∀ (cards : List Decor) (next i : ℕ),
      ((addRandomMovement random next cards).1)[i]? =
        (cards[i]?).map (fun card =>
          Decor.mk card.node
            (some (Transform.translate (random (next + 2 * i) * 20 - 10)
              (random (next + 2 * i + 1) * 20 - 10)))) := by
  intro cards
  induction cards with
  | nil => intro next i; simp [addRandomMovement]
  | cons card rest ih =>
    intro next i
    cases i with
    | zero => simp [addRandomMovement]
    | succ i =>
      simp only [addRandomMovement, List.getElem?_cons_succ]
      rw [ih (next + 2) i, show next + 2 + 2 * i = next + 2 * (i + 1) by omega]

/-- C9: when every draw of `Math.random` lies in `[0, 1)`, `addRandomMovement`
gives the card at position `i` the translation built from its own two draws
(the draws number `2 i` and `2 i + 1` of the call, used by no other card), both
coordinates lie in `[-10, 10)`, and the call consumes two draws per card. -/
theorem addRandomMovement_bounds (random : ℕ → ℚ) (next : ℕ) (cards : List Decor)
    (hrand : ∀ k, 0 ≤ random k ∧ random k < 1) :
    (addRandomMovement random next cards).2 = next + 2 * cards.length ∧
    ∀ i, ((addRandomMovement random next cards).1)[i]? =
        (cards[i]?).map (fun card =>
          Decor.mk card.node
            (some (Transform.translate (random (next + 2 * i) * 20 - 10)
              (random (next + 2 * i + 1) * 20 - 10)))) ∧
      -10 ≤ random (next + 2 * i) * 20 - 10 ∧ random (next + 2 * i) * 20 - 10 < 10 ∧
      -10 ≤ random (next + 2 * i + 1) * 20 - 10 ∧ random (next + 2 * i + 1) * 20 - 10 < 10 := by
  refine ⟨addRandomMovement_next random cards next, ?_⟩
  intro i
  obtain ⟨hx0, hx1⟩ := hrand (next + 2 * i)
  obtain ⟨hy0, hy1⟩ := hrand (next + 2 * i + 1)
  refine ⟨addRandomMovement_getElem? random cards next i, ?_, ?_, ?_, ?_⟩ <;> linarith

theorem addRandomMovement_bounds_witness :
    (∀ k : ℕ, (0 : ℚ) ≤ (fun _ => (1 / 2 : ℚ)) k ∧ (fun _ => (1 / 2 : ℚ)) k < 1) ∧
    (addRandomMovement (fun _ => 1 / 2) 0 [Decor.mk 7 none, Decor.mk 8 none]).2 =
      0 + 2 * [Decor.mk 7 none, Decor.mk 8 none].length :=
  ⟨fun _ => ⟨by norm_num, by norm_num⟩,
   (addRandomMovement_bounds (fun _ => 1 / 2) 0 [Decor.mk 7 none, Decor.mk 8 none]
     (fun _ => ⟨by norm_num, by norm_num⟩)).1⟩

/-! ### Cursor trail -/

theorem trailStep_timeout_some (s s' : TrailState) (node : ℕ)
    (h : trailStep s (TrailEvent.timeout node) = some s') :
    s' = onTimeout s node ∧ ∃ t ∈ s.timeouts, t.2 = node ∧ t.1 ≤ s.now := by
  simp only [trailStep] at h
  cases hf : s.timeouts.find? (fun t => decide (t.2 = node)) with
  | none => simp [hf] at h
  | some t =>
    simp only [hf] at h
    by_cases hdue : t.1 ≤ s.now
    · rw [if_pos hdue] at h
      refine ⟨(Option.some.inj h).symm, t, List.mem_of_find?_eq_some hf, ?_, hdue⟩
      have := List.find?_some hf
      simpa using this
    · rw [if_neg hdue] at h
      exact Option.noConfusion h

theorem trailStep_wait_some (s s' : TrailState) (dt : ℚ)
    (h : trailStep s (TrailEvent.wait dt) = some s') :
    0 ≤ dt ∧ s' = { s with now := s.now + dt } := by
  simp only [trailStep] at h
  by_cases hdt : 0 ≤ dt
  · rw [if_pos hdt] at h
    exact ⟨hdt, (Option.some.inj h).symm⟩
  · rw [if_neg hdt] at h; exact Option.noConfusion h

theorem timersKnown_step (s s' : TrailState) (e : TrailEvent) (hs : TimersKnown s)
    (h : trailStep s e = some s') : TimersKnown s' := by
  cases e with
  | mousemove x y =>
    have hs' : s' = onMouseMove s x y := (Option.some.inj h).symm
    subst hs'
    intro t ht
    simp only [onMouseMove, List.mem_append, List.mem_singleton] at ht ⊢
    rcases ht with ht | ht
    · exact Nat.lt_succ_of_lt (hs t ht)
    · subst ht; exact Nat.lt_succ_self _
  | wait dt =>
    obtain ⟨_, hs'⟩ := trailStep_wait_some s s' dt h
    subst hs'
    exact hs
  | timeout node =>
    obtain ⟨hs', _⟩ := trailStep_timeout_some s s' node h
    subst hs'
    intro t ht
    simp only [onTimeout, List.mem_filter] at ht ⊢
    exact hs t ht.1

theorem timersKnown_run :
    ∀ (evs : List TrailEvent) (s s' : TrailState), TimersKnown s →
      trailRun s evs = some s' → TimersKnown s' := by
  intro evs
  induction evs with
  | nil => intro s s' hs h; rw [← Option.some.inj h]; exact hs
  | cons e rest ih =>
    intro s s' hs h
    unfold trailRun at h
    cases hstep : trailStep s e with
    | none => simp [hstep] at h
    | some s1 =>
      simp only [hstep] at h
      exact ih s1 s' (timersKnown_step s s1 e hs hstep) h

theorem timersKnown_init : TimersKnown TrailState.init := by
  intro t ht
  simp [TrailState.init] at ht

theorem markerGone_step (m : Marker) (due : ℚ) (s s' : TrailState) (e : TrailEvent)
    (hs : MarkerGone m due s) (h : trailStep s e = some s') : MarkerGone m due s' := by
  obtain ⟨hn, hbody, hdue⟩ := hs
  cases e with
  | mousemove x y =>
    have hs' : s' = onMouseMove s x y := (Option.some.inj h).symm
    subst hs'
    refine ⟨Nat.lt_succ_of_lt hn, ?_, hdue⟩
    intro m' hm'
    simp only [onMouseMove, List.mem_append, List.mem_singleton] at hm'
    rcases hm' with hm' | hm'
    · exact hbody m' hm'
    · subst hm'; exact (Nat.ne_of_lt hn).symm
  | wait dt =>
    obtain ⟨hdt, hs'⟩ := trailStep_wait_some s s' dt h
    subst hs'
    exact ⟨hn, hbody, by simp only; linarith⟩
  | timeout node =>
    obtain ⟨hs', _⟩ := trailStep_timeout_some s s' node h
    subst hs'
    refine ⟨hn, ?_, hdue⟩
    intro m' hm'
    simp only [onTimeout, List.mem_filter] at hm'
    exact hbody m' hm'.1

theorem markerGone_run (m : Marker) (due : ℚ) :
    ∀ (evs : List TrailEvent) (s s' : TrailState), MarkerGone m due s →
      trailRun s evs = some s' → MarkerGone m due s' := by
  intro evs
  induction evs with
  | nil => intro s s' hs h; rw [← Option.some.inj h]; exact hs
  | cons e rest ih =>
    intro s s' hs h
    unfold trailRun at h
    cases hstep : trailStep s e with
    | none => simp [hstep] at h
    | some s1 =>
      simp only [hstep] at h
      exact ih s1 s' (markerGone_step m due s s1 e hs hstep) h

theorem markerPending_step (m : Marker) (due : ℚ) (s s' : TrailState) (e : TrailEvent)
    (hs : MarkerPending m due s) (hne : e ≠ TrailEvent.timeout m.node)
    (h : trailStep s e = some s') : MarkerPending m due s' := by
  obtain ⟨hn, hbody, huniq, t0, ht0, ht0n⟩ := hs
  cases e with
  | mousemove x y =>
    have hs' : s' = onMouseMove s x y := (Option.some.inj h).symm
    subst hs'
    refine ⟨Nat.lt_succ_of_lt hn, ?_, ?_, t0, ?_, ht0n⟩
    · simp only [onMouseMove, List.mem_append]; exact Or.inl hbody
    · intro t ht htn
      simp only [onMouseMove, List.mem_append, List.mem_singleton] at ht
      rcases ht with ht | ht
      · exact huniq t ht htn
      · subst ht
        simp only at htn
        omega
    · simp only [onMouseMove, List.mem_append]; exact Or.inl ht0
  | wait dt =>
    obtain ⟨_, hs'⟩ := trailStep_wait_some s s' dt h
    subst hs'
    exact ⟨hn, hbody, huniq, t0, ht0, ht0n⟩
  | timeout node =>
    have hnode : node ≠ m.node := fun hc => hne (by rw [hc])
    obtain ⟨hs', _⟩ := trailStep_timeout_some s s' node h
    subst hs'
    refine ⟨hn, ?_, ?_, t0, ?_, ht0n⟩
    · simp only [onTimeout, List.mem_filter]
      exact ⟨hbody, by simpa using fun hc => hnode hc.symm⟩
    · intro t ht htn
      simp only [onTimeout, List.mem_filter] at ht
      exact huniq t ht.1 htn
    · simp only [onTimeout, List.mem_filter]
      exact ⟨ht0, by simpa [ht0n] using fun hc => hnode hc.symm⟩

theorem markerPending_fire (m : Marker) (due : ℚ) (s : TrailState)
    (hs : MarkerPending m due s) :
    (s.now < due → trailStep s (TrailEvent.timeout m.node) = none) ∧
    (due ≤ s.now → trailStep s (TrailEvent.timeout m.node) = some (onTimeout s m.node)) ∧
    MarkerGone m s.now (onTimeout s m.node) := by
  obtain ⟨hn, hbody, huniq, t0, ht0, ht0n⟩ := hs
  have hfind : ∃ t, s.timeouts.find? (fun t => decide (t.2 = m.node)) = some t ∧ t.1 = due := by
    cases hf : s.timeouts.find? (fun t => decide (t.2 = m.node)) with
    | none =>
      have := List.find?_eq_none.mp hf t0 ht0
      simp [ht0n] at this
    | some t =>
      have h1 := List.find?_some hf
      exact ⟨t, rfl, huniq t (List.mem_of_find?_eq_some hf) (by simpa using h1)⟩
  obtain ⟨t, hft, htd⟩ := hfind
  refine ⟨?_, ?_, hn, ?_, le_refl _⟩
  · intro hlt
    simp only [trailStep, hft, htd, if_neg (not_le.mpr hlt)]
  · intro hle
    simp only [trailStep, hft, htd, if_pos hle]
  · intro m' hm'
    simp only [onTimeout, List.mem_filter] at hm'
    simpa using hm'.2

theorem markerPending_run (m : Marker) (due : ℚ) :
    ∀ (evs : List TrailEvent) (s s' : TrailState), MarkerPending m due s →
      trailRun s evs = some s' →
      (TrailEvent.timeout m.node ∉ evs → MarkerPending m due s') ∧
      (TrailEvent.timeout m.node ∈ evs → MarkerGone m due s') := by
  intro evs
  induction evs with
  | nil =>
    intro s s' hs h
    rw [← Option.some.inj h]
    exact ⟨fun _ => hs, fun hmem => absurd hmem (List.not_mem_nil _)⟩
  | cons e rest ih =>
    intro s s' hs h
    unfold trailRun at h
    cases hstep : trailStep s e with
    | none => simp [hstep] at h
    | some s1 =>
      simp only [hstep] at h
      by_cases he : e = TrailEvent.timeout m.node
      · subst he
        obtain ⟨hearly, _, hgone⟩ := markerPending_fire m due s hs
        obtain ⟨hs1, t, _, _, _⟩ := trailStep_timeout_some s s1 m.node hstep
        have hdue : due ≤ s.now := by
          by_contra hc
          rw [hearly (not_le.mp hc)] at hstep
          exact Option.noConfusion hstep
        subst hs1
        have hgone' : MarkerGone m due (onTimeout s m.node) :=
          ⟨hgone.1, hgone.2.1, by simpa [onTimeout] using hdue⟩
        refine ⟨fun hnot => absurd (List.mem_cons_self _ _) hnot, fun _ => ?_⟩
        exact markerGone_run m due rest _ s' hgone' h
      · have hp1 := markerPending_step m due s s1 e hs he hstep
        obtain ⟨ha, hb⟩ := ih s1 s' hp1 h
        refine ⟨fun hnot => ha (fun hc => hnot (List.mem_cons_of_mem _ hc)), fun hmem => ?_⟩
        rcases List.mem_cons.mp hmem with hc | hc
        · exact absurd hc.symm he
        · exact hb hc

/-- C8: the `mousemove` listener, run at time `t0` in any state the page can
reach, appends exactly one `cursor-glow` marker at the event's page coordinates.
Whatever happens afterwards, the marker is in the document at every time before
`t0 + 500`, its timeout cannot fire before then, the marker is present exactly as
long as its own timeout has not fired, and from `t0 + 500` on that timeout can
fire and removes it. -/
theorem cursor_marker_lifetime (evs1 evs2 : List TrailEvent) (p q : TrailState)
    (pageX pageY : ℚ)
    (h1 : trailRun TrailState.init evs1 = some p)
    (h2 : trailRun (onMouseMove p pageX pageY) evs2 = some q) :
    trailStep p (TrailEvent.mousemove pageX pageY) = some (onMouseMove p pageX pageY) ∧
    (onMouseMove p pageX pageY).body =
      p.body ++ [Marker.mk p.nextNode "cursor-glow" pageX pageY] ∧
    (q.now < p.now + 500 → Marker.mk p.nextNode "cursor-glow" pageX pageY ∈ q.body) ∧
    (q.now < p.now + 500 → trailStep q (TrailEvent.timeout p.nextNode) = none) ∧
    (Marker.mk p.nextNode "cursor-glow" pageX pageY ∈ q.body ↔
      TrailEvent.timeout p.nextNode ∉ evs2) ∧
    (TrailEvent.timeout p.nextNode ∉ evs2 → p.now + 500 ≤ q.now →
      ∃ q', trailStep q (TrailEvent.timeout p.nextNode) = some q' ∧
        Marker.mk p.nextNode "cursor-glow" pageX pageY ∉ q'.body) := by
  have hknown : TimersKnown p := timersKnown_run evs1 _ p timersKnown_init h1
  have hpend : MarkerPending (Marker.mk p.nextNode "cursor-glow" pageX pageY) (p.now + 500)
      (onMouseMove p pageX pageY) := by
    refine ⟨Nat.lt_succ_self _, ?_, ?_, (p.now + 500, p.nextNode), ?_, rfl⟩
    · simp [onMouseMove]
    · intro t ht htn
      simp only [onMouseMove, List.mem_append, List.mem_singleton] at ht
      rcases ht with ht | ht
      · have := hknown t ht
        simp only at htn
        omega
      · rw [ht]
    · simp [onMouseMove]
  obtain ⟨hno, hyes⟩ := markerPending_run _ _ evs2 _ q hpend h2
  have hgone_absent : TrailEvent.timeout p.nextNode ∈ evs2 →
      Marker.mk p.nextNode "cursor-glow" pageX pageY ∉ q.body := by
    intro hmem hin
    exact (hyes hmem).2.1 _ hin rfl
  refine ⟨rfl, rfl, ?_, ?_, ?_, ?_⟩
  · intro hlt
    by_cases hmem : TrailEvent.timeout p.nextNode ∈ evs2
    · have := (hyes hmem).2.2
      exact absurd hlt (not_lt.mpr this)
    · exact (hno hmem).2.1
  · intro hlt
    by_cases hmem : TrailEvent.timeout p.nextNode ∈ evs2
    · have := (hyes hmem).2.2
      exact absurd hlt (not_lt.mpr this)
    · exact (markerPending_fire _ _ q (hno hmem)).1 hlt
  · constructor
    · intro hin hmem
      exact hgone_absent hmem hin
    · intro hnot
      exact (hno hnot).2.1
  · intro hnot hdue
    obtain ⟨_, hfire, hgone⟩ := markerPending_fire _ _ q (hno hnot)
    refine ⟨_, hfire hdue, ?_⟩
    intro hin
    exact hgone.2.1 _ hin rfl

theorem cursor_marker_lifetime_witness :
    trailRun TrailState.init [TrailEvent.mousemove 1 2, TrailEvent.wait 100] =
      some (TrailState.mk 100 [Marker.mk 0 "cursor-glow" 1 2] [(500, 0)] 1) ∧
    trailRun (onMouseMove (TrailState.mk 100 [Marker.mk 0 "cursor-glow" 1 2] [(500, 0)] 1) 30 40)
        [TrailEvent.wait 400, TrailEvent.timeout 0] =
      some (TrailState.mk 500 [Marker.mk 1 "cursor-glow" 30 40] [(600, 1)] 2) ∧
    (Marker.mk 1 "cursor-glow" 30 40 ∈
        (TrailState.mk 500 [Marker.mk 1 "cursor-glow" 30 40] [(600, 1)] 2).body ↔
      TrailEvent.timeout 1 ∉ [TrailEvent.wait 400, TrailEvent.timeout 0]) :=
  ⟨by decide!, by decide!,
   (cursor_marker_lifetime [TrailEvent.mousemove 1 2, TrailEvent.wait 100]
     [TrailEvent.wait 400, TrailEvent.timeout 0]
     (TrailState.mk 100 [Marker.mk 0 "cursor-glow" 1 2] [(500, 0)] 1)
     (TrailState.mk 500 [Marker.mk 1 "cursor-glow" 30 40] [(600, 1)] 2)
     30 40 (by decide!) (by decide!)).2.2.2.2.1⟩

end Script
